import Mathlib

/-!
# Verification of the EasyHire upload-and-score / aggregation pipeline

Shallow embedding of the repository's ingestion and aggregation code:

* `src/client-app/src/app/api/upload/route.ts`      (upload endpoint)
* `src/client-app/src/app/api/scores/route.ts`      (aggregator / summary endpoint)
* `src/client-app/src/app/api/submissions/route.ts` (submission store endpoints)
* `src/client-app/src/lib/scores.ts`                (legacy score-log reader)
* `src/client-app/src/app/cv-score/page.js`         (dashboard view transforms)

Modelling conventions:

* JS finite numbers are represented by `ℚ`; `NaN` and the infinities are
  represented explicitly where the code can observe them (`JSVal.nan`).
* ISO date strings are identified with their epoch-millisecond timestamps
  (`Int`); an unparseable date string is `JSDateVal.invalid`.
* A nullable / possibly-absent field is an `Option`; for string fields,
  JS falsiness (`""`, `null`, `undefined`) is handled by explicit helpers
  mirroring `||` and `??`.
* File-system writes are modelled as data recorded in the handler's result
  (the claims under study concern validation / scoring / aggregation logic,
  with disk operations assumed to succeed on the accepted paths).
-/

set_option maxRecDepth 4000

namespace Easyhire

/-! ## JavaScript value primitives -/

/-- A JavaScript value as observed by the dynamic (`any`-typed) code paths.
`num` holds a finite number; `nan` stands for any non-finite number
(`NaN`, `Infinity`, `-Infinity`); `obj` stands for a plain object or array
(whose `Number(-)` coercion is `NaN` for the objects this code handles). -/
inductive JSVal where
  | undef
  | null
  | bool (b : Bool)
  | num (q : ℚ)
  | nan
  | str (s : String)
  | obj
deriving DecidableEq

/-- JS string falsiness: `a || b` on strings falls through exactly on `""`. -/
def jsOrStr (a b : String) : String := if a = "" then b else a

/-- Nullish coalescing `a ?? b` on possibly-absent values. -/
def jsNullish {α : Type} (a b : Option α) : Option α :=
  match a with
  | some x => some x
  | none => b

/-- `v ?? null` collapsing for a JS value: `undefined` and `null` both give
`null` (modelled `none`); anything else is kept. -/
def jsNullishOpt (v : JSVal) : Option JSVal :=
  match v with
  | .undef => none
  | .null => none
  | x => some x

/-- Is a character one of the whitespace characters `Number()` strips? -/
def jsIsSpace (c : Char) : Bool :=
  c = ' ' || c = '\t' || c = '\n' || c = '\r'

/-- Value of a run of decimal digits. -/
def digitsToNat : List Char → Nat → Nat
  | [], acc => acc
  | c :: cs, acc => digitsToNat cs (acc * 10 + (c.toNat - '0'.toNat))

/-- Parse an unsigned decimal literal `digits [. digits] [e[[sign]]digits]`.
Models the decimal-literal case of the JS `Number()` builtin. -/
def parseDecimal (cs : List Char) : Option ℚ :=
  let intPart := cs.takeWhile Char.isDigit
  let rest := cs.dropWhile Char.isDigit
  let (fracPart, rest2) :=
    match rest with
    | '.' :: t => (t.takeWhile Char.isDigit, t.dropWhile Char.isDigit)
    | _ => ([], rest)
  if intPart.isEmpty && fracPart.isEmpty then none
  else
    let mantissa : ℚ :=
      (digitsToNat intPart 0 : ℚ) +
        (digitsToNat fracPart 0 : ℚ) / ((10 : ℚ) ^ fracPart.length)
    match rest2 with
    | [] => some mantissa
    | 'e' :: t => parseExp mantissa t
    | 'E' :: t => parseExp mantissa t
    | _ => none
where
  parseExp (m : ℚ) (t : List Char) : Option ℚ :=
    let (sgn, ds) :=
      match t with
      | '+' :: u => (1, u)
      | '-' :: u => (-1, u)
      | u => (1, u)
    if ds.isEmpty || !ds.all Char.isDigit then none
    else some (m * (10 : ℚ) ^ ((sgn : ℤ) * (digitsToNat ds 0 : ℤ)))

/-- `Number(string)` restricted to finite outcomes: trimmed empty string is
`0`; a signed decimal literal is its value; anything else (including
`"Infinity"`) is non-finite, i.e. `none`. -/
def jsStringToNumFinite (s : String) : Option ℚ :=
  let cs := (s.toList.dropWhile jsIsSpace).reverse.dropWhile jsIsSpace |>.reverse
  match cs with
  | [] => some 0
  | '+' :: t => parseDecimal t
  | '-' :: t => (parseDecimal t).map Neg.neg
  | t => parseDecimal t

/-- `Number(v)` when the result is finite (`Number.isFinite(Number(v))`):
returns `some` of the coerced value, `none` when the coercion is `NaN` or
infinite.  Mirrors the JS coercion rules: `undefined → NaN`, `null → 0`,
booleans → 0/1, plain objects → NaN. -/
def jsToNumFinite (v : JSVal) : Option ℚ :=
  match v with
  | .undef => none
  | .null => some 0
  | .bool b => some (if b then 1 else 0)
  | .num q => some q
  | .nan => none
  | .str s => jsStringToNumFinite s
  | .obj => none

/-- `Math.round`: round half toward positive infinity. -/
def jsRound (q : ℚ) : ℤ := ⌊q + 1 / 2⌋

/-- `Number(x) || 0` for a finite number `x` (`0` is falsy, everything else
is kept). -/
def jsNumOrZero (q : ℚ) : ℚ := if q = 0 then 0 else q

/-- `String.prototype.toLowerCase`, modelled as character-wise lowering
(`String.toLower` does the same but walks byte positions, which the
kernel cannot evaluate). -/
def strToLower (s : String) : String := String.mk (s.toList.map Char.toLower)

/-- Does `n` occur as a contiguous block of `h`? -/
def listHasBlock (n : List Char) : List Char → Bool
  | [] => n.isEmpty
  | c :: cs => n.isPrefixOf (c :: cs) || listHasBlock n cs

/-- `String.prototype.includes`, used for the dashboard's substring search. -/
def strIncludes (hay needle : String) : Bool :=
  listHasBlock needle.toList hay.toList

/-- `a.localeCompare(b)` modelled as code-point lexicographic comparison
(the default locale ordering agrees with it on the ASCII names used here). -/
def strCompare (a b : String) : ℚ :=
  if a < b then -1 else if b < a then 1 else 0

/-! ## `Array.prototype.sort` with a numeric comparator

ES2019 requires `sort` to be stable and, for a consistent comparator
`cmp`, to produce an order in which `x` precedes `y` whenever
`cmp x y < 0`.  We model it as a stable insertion sort: each element is
inserted after every already-placed element it does not strictly precede. -/

/-- Insert `x` (arriving later than everything in the list) before the first
element it strictly precedes according to `lt`. -/
def insertCmp {α : Type} (lt : α → α → Bool) (x : α) : List α → List α
  | [] => [x]
  | y :: ys => if lt x y then x :: y :: ys else y :: insertCmp lt x ys

/-- Stable comparator sort (model of `Array.prototype.sort(cmp)`). -/
def jsSort {α : Type} (cmp : α → α → ℚ) (l : List α) : List α :=
  l.foldl (fun acc x => insertCmp (fun a b => decide (cmp a b < 0)) x acc) []

/-! ## Path helpers used by the upload route -/

/-- `path.extname` for a plain file name: the suffix from the last `.`,
empty when there is no `.` or the only `.` leads the name (dotfile). -/
def extname (s : String) : String :=
  let r := s.toList.reverse
  let pre := r.takeWhile (fun c => c ≠ '.')
  let rest := r.dropWhile (fun c => c ≠ '.')
  match rest with
  | [] => ""
  | _ :: tl => if tl.isEmpty then "" else String.mk ('.' :: pre.reverse)

/-- `path.basename(name, ext)`: the name with the extension suffix removed. -/
def basenameDropExt (name ext : String) : String :=
  String.mk (name.toList.take (name.length - ext.length))

end Easyhire

namespace Easyhire

/-! ## Upload endpoint (`app/api/upload/route.ts`) -/

/-- MIME allow-list `ALLOWED_MIME`. -/
def ALLOWED_MIME : List String :=
  ["application/pdf",
   "application/msword",
   "application/vnd.openxmlformats-officedocument.wordprocessingml.document"]

/-- Extension allow-list `ALLOWED_EXT`. -/
def ALLOWED_EXT : List String := [".pdf", ".doc", ".docx"]

/-- `MAX_BYTES = 20 * 1024 * 1024` (20 MB). -/
def MAX_BYTES : Nat := 20 * 1024 * 1024

/-- The client-declared metadata of the uploaded `File`. -/
structure UploadFile where
  name : String
  type : String
  size : Nat
deriving DecidableEq

/-- Is a character in `\w`, `.` or `-` (kept verbatim by the sanitizer)? -/
def isSafeChar (c : Char) : Bool :=
  c.isAlphanum || c = '_' || c = '.' || c = '-'

/-- Replace each maximal run of characters outside `[\w.-]` by one `_`
(the `replace(/[^\w.-]+/g, "_")` of the upload route).  The flag records
whether the previous character was part of such a run. -/
def sanitizeAux : Bool → List Char → List Char
  | _, [] => []
  | inRun, c :: cs =>
    if isSafeChar c then c :: sanitizeAux false cs
    else if inRun then sanitizeAux true cs
    else '_' :: sanitizeAux true cs

/-- Sanitized base name used when building the stored file name. -/
def sanitizeBase (s : String) : String := String.mk (sanitizeAux false s.toList)

/-- The single JSON object expected on the scorer's last stdout line. -/
structure ScorerJson where
  final_score : JSVal
deriving DecidableEq

/-- Outcome of the external scorer invocation, as the route observes it:
`fail` = `execFile` threw (process error / non-zero exit); `output none` =
the process succeeded but its last stdout line is not valid JSON
(`JSON.parse` throws); `output (some j)` = the last line parsed to `j`. -/
inductive ScorerOutcome where
  | fail
  | output (parsed : Option ScorerJson)
deriving DecidableEq

/-- One line of the `pdf_collection/scores.txt` append-only log:
`{ file, path, score, meta, ts }`. -/
structure UploadLogEntry where
  file : String
  path : String
  score : Option JSVal
  meta : Option ScorerJson
  ts : Int
deriving DecidableEq

/-- What the upload route's `POST` produced: the HTTP response plus the
file-system effects it performed. -/
structure UploadResult where
  status : Nat
  ok : Bool
  error : Option String
  filename : Option String
  score : Option JSVal
  fileWritten : Bool
  logged : Option UploadLogEntry
deriving DecidableEq

/-- Shallow embedding of `POST /api/upload`.  `now` is `Date.now()` in
epoch milliseconds, `rand` the random UUID whose first 8 characters are
used in the stored name.  Disk operations are assumed to succeed (the
claims under study concern validation and scorer-failure handling). -/
def uploadPost (file? : Option UploadFile) (scorer : ScorerOutcome)
    (now : Int) (rand : String) : UploadResult :=
  match file? with
  | none =>
    { status := 400, ok := false, error := some "No file provided.",
      filename := none, score := none, fileWritten := false, logged := none }
  | some f =>
    let name := jsOrStr f.name "upload"
    let ext := strToLower (extname name)
    let typeOk := ALLOWED_MIME.contains f.type || ALLOWED_EXT.contains ext
    if !typeOk then
      { status := 400, ok := false, error := some "Only PDF/DOC/DOCX allowed.",
        filename := none, score := none, fileWritten := false, logged := none }
    else if f.size > MAX_BYTES then
      { status := 413, ok := false, error := some "File too large (>20MB).",
        filename := none, score := none, fileWritten := false, logged := none }
    else
      let safeBase := sanitizeBase (basenameDropExt name ext)
      let unique := safeBase ++ "_" ++ toString now ++ "_" ++
        String.mk (rand.toList.take 8) ++ ext
      let savedPath := "pdf_collection/" ++ unique
      -- step 3: run the scorer; on any throw (process failure or a
      -- JSON.parse failure on its output) `score` and `resultObj` stay null
      let parsedObj : Option ScorerJson :=
        match scorer with
        | .fail => none
        | .output p => p
      let score : Option JSVal :=
        match parsedObj with
        | none => none
        | some obj => jsNullishOpt obj.final_score
      { status := 200, ok := true, error := none,
        filename := some unique, score := score, fileWritten := true,
        logged := some { file := unique, path := savedPath, score := score,
                         meta := parsedObj, ts := now } }

end Easyhire

namespace Easyhire

/-! ## Data model (`app/api/scores/route.ts`, `app/api/submissions/route.ts`) -/

/-- The four optional score fields of the `Scoring` payload type
(`{ score?, overall?, final?, total? }`); each is an arbitrary JSON value
at runtime, `undef` when absent. -/
structure ScoreFields where
  score : JSVal
  overall : JSVal
  final : JSVal
  total : JSVal
deriving DecidableEq

/-- The empty object `{}` substituted by `s.scoring ?? {}`. -/
def emptyScoreFields : ScoreFields :=
  { score := .undef, overall := .undef, final := .undef, total := .undef }

/-- The result of `new Date(raw)` on a date-like field: a valid instant
(epoch milliseconds) or `Invalid Date`. -/
inductive JSDateVal where
  | valid (t : Int)
  | invalid
deriving DecidableEq

/-- A stored `Submission` (the TS `Submission` type).  `submittedAt` is the
ISO timestamp identified with its epoch milliseconds; `none` models the
falsy empty string. -/
structure Submission where
  id : String
  submittedAt : Option Int
  fileName : Option String
  fileType : Option String
  name : String
  email : String
  phone : String
  isNZCitizen : Bool
  hasCriminalHistory : Bool
  whyJoin : String
  messageToHM : String
  scoring : Option ScoreFields
deriving DecidableEq

/-- A legacy score-log row as the forgiving reader sees it: an arbitrary
JSON object.  We model the fields the code reads; string-ish fields are
`Option String` (`none` = absent or `null`), date-ish fields carry the
result of `new Date`, and the four score candidates are arbitrary JSON
values since `Number()` coercion on them is what the code depends on. -/
structure LegacyRow where
  name : Option String
  candidate : Option String
  file : Option String
  fileName : Option String
  fileType : Option String
  date : Option JSDateVal
  submittedAt : Option JSDateVal
  id : Option String
  uuid : Option String
  email : Option String
  phone : Option String
  whyJoin : Option String
  messageToHM : Option String
  isNZCitizen : Bool
  hasCriminalHistory : Bool
  score : JSVal
  overall : JSVal
  final : JSVal
  total : JSVal
deriving DecidableEq

/-- View of a legacy row's four score-candidate fields, as accessed by
`extractScoreLike(row)`. -/
def LegacyRow.scoreView (r : LegacyRow) : ScoreFields :=
  { score := r.score, overall := r.overall, final := r.final, total := r.total }

/-- Where an aggregated item came from (`_source`). -/
inductive Source where
  | packaged
  | legacy
deriving DecidableEq

/-- The `scoring` payload carried by an aggregated item: the submission's
`Scoring` object, or (for legacy items) the whole raw row. -/
inductive ScoringPayload where
  | ofScoring (sc : ScoreFields)
  | ofRow (r : LegacyRow)
deriving DecidableEq

/-- An Aggregated View Item (the object literal built by
`normalizeFromSubmission` / `normalizeFromLegacy`). -/
structure Item where
  id : String
  name : String
  score : ℚ
  date : Int
  fileName : Option String
  fileType : Option String
  email : String
  phone : String
  isNZCitizen : Bool
  hasCriminalHistory : Bool
  whyJoin : String
  messageToHM : String
  scoring : Option ScoringPayload
  source : Source
deriving DecidableEq

/-! ## Score extraction and normalization -/

/-- First candidate that coerces to a finite number, scanned left to
right (the `for` loop of `extractScoreLike`). -/
def firstFiniteNum : List JSVal → Option ℚ
  | [] => none
  | c :: rest =>
    match jsToNumFinite c with
    | some n => some n
    | none => firstFiniteNum rest

/-- `extractScoreLike(obj)`: first of `obj.score, obj.overall, obj.final,
obj.total` whose `Number()` coercion is finite; `0` when none is. -/
def extractScoreLike (obj : ScoreFields) : ℚ :=
  (firstFiniteNum [obj.score, obj.overall, obj.final, obj.total]).getD 0

/-- `s.fileName || null`: the empty string also collapses to `null`. -/
def jsOrNullStr (o : Option String) : Option String :=
  if o.getD "" = "" then none else o

/-- `normalizeFromSubmission(s)` (`now` models `new Date()` for the dead
fallback on a falsy `submittedAt`). -/
def normalizeFromSubmission (now : Int) (s : Submission) : Item :=
  { id := s.id,
    name := jsOrStr s.name (jsOrStr s.email (jsOrStr (s.fileName.getD "") "Unknown")),
    score := extractScoreLike (s.scoring.getD emptyScoreFields),
    date := s.submittedAt.getD now,
    fileName := jsOrNullStr s.fileName,
    fileType := jsOrNullStr s.fileType,
    email := jsOrStr s.email "",
    phone := jsOrStr s.phone "",
    isNZCitizen := s.isNZCitizen,
    hasCriminalHistory := s.hasCriminalHistory,
    whyJoin := jsOrStr s.whyJoin "",
    messageToHM := jsOrStr s.messageToHM "",
    scoring := s.scoring.map ScoringPayload.ofScoring,
    source := .packaged }

/-- `normalizeFromLegacy(row, idx)`.  `now` models `new Date()`, used when
the row has no (valid) `date` / `submittedAt`. -/
def normalizeFromLegacy (now : Int) (idx : Nat) (row : LegacyRow) : Item :=
  let nameV : String :=
    (jsNullish row.name (jsNullish row.candidate
      (jsNullish row.file row.fileName))).getD "Unknown"
  let dateRaw : JSDateVal :=
    (jsNullish row.date row.submittedAt).getD (JSDateVal.valid now)
  let dateIso : Int :=
    match dateRaw with
    | .invalid => now
    | .valid t => t
  let score : ℚ := extractScoreLike row.scoreView
  let idV : String :=
    jsOrStr (row.id.getD "") (jsOrStr (row.uuid.getD "")
      (nameV ++ "-" ++ toString score ++ "-" ++ toString dateIso ++ "-" ++ toString idx))
  { id := idV,
    name := nameV,
    score := score,
    date := dateIso,
    fileName := jsNullish row.fileName row.file,
    fileType := row.fileType,
    email := row.email.getD "",
    phone := row.phone.getD "",
    isNZCitizen := row.isNZCitizen,
    hasCriminalHistory := row.hasCriminalHistory,
    whyJoin := row.whyJoin.getD "",
    messageToHM := row.messageToHM.getD "",
    scoring := some (.ofRow row),
    source := .legacy }

/-- `rows.map(normalizeFromLegacy)`: JS `map` passes `(row, idx)`. -/
def normalizeLegacyList (now : Int) : Nat → List LegacyRow → List Item
  | _, [] => []
  | i, r :: rs => normalizeFromLegacy now i r :: normalizeLegacyList now (i + 1) rs

/-! ## Reading the legacy score log -/

/-- One physical line of `pdf_collection/scores.txt`: blank, a line whose
`JSON.parse` yields a row, or a malformed line on which `JSON.parse`
throws. -/
inductive LogLine where
  | blank
  | good (r : LegacyRow)
  | bad
deriving DecidableEq

/-- The well-formed rows of a line list, in order. -/
def goodRows : List LogLine → List LegacyRow
  | [] => []
  | .good r :: ls => r :: goodRows ls
  | .blank :: ls => goodRows ls
  | .bad :: ls => goodRows ls

/-- `readScores()` of `lib/scores.ts`: maps `JSON.parse` over every
non-blank line, so the whole call throws (`Except.error`) at the first
malformed line; a missing file (`ENOENT`) yields `[]`. -/
def readScores (file : Option (List LogLine)) : Except Unit (List LegacyRow) :=
  match file with
  | none => .ok []
  | some lines => parseAll lines
where
  parseAll : List LogLine → Except Unit (List LegacyRow)
    | [] => .ok []
    | .blank :: ls => parseAll ls
    | .bad :: _ => .error ()
    | .good r :: ls => (parseAll ls).map (r :: ·)

/-- `tryReadLegacyViaLib()`: calls `readScores` and returns `null` on any
throw. -/
def tryReadLegacyViaLib (file : Option (List LogLine)) : Option (List LegacyRow) :=
  match readScores file with
  | .ok rows => some rows
  | .error _ => none

/-- `tryReadLegacyFromFile()`: parses the file line by line, silently
skipping malformed lines; `null` when the file cannot be read. -/
def tryReadLegacyFromFile (file : Option (List LogLine)) : Option (List LegacyRow) :=
  match file with
  | none => none
  | some lines => some (goodRows lines)

/-- The legacy rows the `GET` handler ends up with:
`tryReadLegacyViaLib() ?? tryReadLegacyFromFile() ?? []`
(the code spells the last two steps as `if (!legacyRows) ...` and
`legacyRows || []`, equivalent here since the values are arrays or null). -/
def legacyRowsOf (file : Option (List LogLine)) : List LegacyRow :=
  (jsNullish (tryReadLegacyViaLib file) (tryReadLegacyFromFile file)).getD []

end Easyhire

namespace Easyhire

/-! ## De-duplication (`dedupePreferPackaged`) -/

/-- The de-duplication key: `(email || name || fileName || "unknown")
.toLowerCase()` paired with `Math.floor(getTime() / 60000)` (the template
string `who#minute` is in bijection with this pair, the minute being the
digits after the last `#`). -/
def itemKey (r : Item) : String × Int :=
  (strToLower (jsOrStr r.email (jsOrStr r.name (jsOrStr (r.fileName.getD "") "unknown"))),
   Int.fdiv r.date 60000)

/-- `Map.prototype.get` on an insertion-ordered association list. -/
def mapGet (m : List ((String × Int) × Item)) (k : String × Int) : Option Item :=
  match m with
  | [] => none
  | (k', v) :: rest => if k' = k then some v else mapGet rest k

/-- `Map.prototype.set`: replace in place, or append a fresh key. -/
def mapSet (m : List ((String × Int) × Item)) (k : String × Int) (v : Item) :
    List ((String × Int) × Item) :=
  match m with
  | [] => [(k, v)]
  | (k', v') :: rest => if k' = k then (k, v) :: rest else (k', v') :: mapSet rest k v

/-- The body of the `for` loop of `dedupePreferPackaged`: keep the first
entry per key, except that a packaged row replaces a legacy one. -/
def dedupeStep (m : List ((String × Int) × Item)) (r : Item) :
    List ((String × Int) × Item) :=
  match mapGet m (itemKey r) with
  | none => mapSet m (itemKey r) r
  | some existing =>
    if existing.source = Source.legacy ∧ r.source = Source.packaged then
      mapSet m (itemKey r) r
    else m

/-- `dedupePreferPackaged(rows)`: fold the rows through the map and return
`Array.from(map.values())` (insertion order). -/
def dedupePreferPackaged (rows : List Item) : List Item :=
  (rows.foldl dedupeStep []).map (fun p => p.2)

/-! ## The summary endpoint (`GET /api/scores`) -/

/-- One `top5` entry `{ name, score }`. -/
structure TopEntry where
  name : String
  score : ℚ
deriving DecidableEq

/-- The response shape `{ totalCVs, averageScore, top5, items }`. -/
structure Summary where
  totalCVs : Nat
  averageScore : ℚ
  top5 : List TopEntry
  items : List Item
deriving DecidableEq

/-- The normalized Submission-Store items (`subStore.map(normalizeFromSubmission)`). -/
def packagedItems (now : Int) (subs : List Submission) : List Item :=
  subs.map (normalizeFromSubmission now)

/-- The normalized Score-Log items (`(legacyRows || []).map(normalizeFromLegacy)`). -/
def legacyItems (now : Int) (file : Option (List LogLine)) : List Item :=
  normalizeLegacyList now 0 (legacyRowsOf file)

/-- The merge-sort comparator `(a, b) => date(b) - date(a)` (newest first). -/
def dateDescCmp (a b : Item) : ℚ := ((b.date - a.date : Int) : ℚ)

/-- The top-5 comparator `(a, b) => b.score - a.score`. -/
def scoreDescCmp (a b : TopEntry) : ℚ := b.score - a.score

/-- Shallow embedding of `GET /api/scores` (the Aggregator's
`computeSummary`).  `subs` is the Submission Store snapshot, `file` the
Score Log contents, and `now` the clock (`new Date()`), which the
normalizers consult for their fallbacks. -/
def computeSummary (subs : List Submission) (file : Option (List LogLine))
    (now : Int) : Summary :=
  let merged : List Item :=
    jsSort dateDescCmp
      (dedupePreferPackaged (packagedItems now subs ++ legacyItems now file))
  -- `merged.map((n) => Number(n.score) || 0).filter(Number.isFinite)`:
  -- in this embedding every score is a finite rational, so the filter
  -- keeps every element.
  let scores : List ℚ := merged.map (fun n => jsNumOrZero n.score)
  let averageScore : ℚ :=
    if scores.length ≠ 0 then
      (jsRound ((scores.sum / (scores.length : ℚ)) * 100) : ℚ) / 100
    else 0
  let top5 : List TopEntry :=
    (jsSort scoreDescCmp
      (merged.map (fun n => ({ name := n.name, score := jsNumOrZero n.score } : TopEntry)))).take 5
  { totalCVs := merged.length, averageScore := averageScore,
    top5 := top5, items := merged }

/-! ## Submissions endpoints (`app/api/submissions/route.ts`) -/

/-- The parsed JSON body of `POST /api/submissions` (`Partial<Submission>`);
every field may be absent.  For `submittedAt`, `none` also covers the falsy
empty string (cf. the `||` default). -/
structure SubmissionBody where
  id : Option String
  submittedAt : Option Int
  fileName : Option String
  fileType : Option String
  name : Option String
  email : Option String
  phone : Option String
  isNZCitizen : Option Bool
  hasCriminalHistory : Option Bool
  whyJoin : Option String
  messageToHM : Option String
  scoring : Option ScoreFields
deriving DecidableEq

/-- `!body?.id` for a string-typed id: absent or empty. -/
def idFalsy (b : SubmissionBody) : Bool := b.id.getD "" = ""

/-- Outcome of `POST /api/submissions`. -/
inductive PostOutcome where
  | success
  | clientError (status : Nat) (msg : String)
deriving DecidableEq

/-- The fully-populated record the handler builds from the body. -/
def buildSubmission (now : Int) (b : SubmissionBody) : Submission :=
  { id := b.id.getD "",
    submittedAt := some (b.submittedAt.getD now),
    fileName := b.fileName,
    fileType := b.fileType,
    name := b.name.getD "",
    email := b.email.getD "",
    phone := b.phone.getD "",
    isNZCitizen := b.isNZCitizen.getD false,
    hasCriminalHistory := b.hasCriminalHistory.getD false,
    whyJoin := b.whyJoin.getD "",
    messageToHM := b.messageToHM.getD "",
    scoring := b.scoring }

/-- Shallow embedding of `POST /api/submissions` (after a successful JSON
parse of the body): the new store contents and the response. -/
def postSubmission (now : Int) (store : List Submission) (b : SubmissionBody) :
    List Submission × PostOutcome :=
  if idFalsy b then
    (store, .clientError 400 "Missing id")
  else
    (store ++ [buildSubmission now b], .success)

/-- `GET /api/submissions`: `[...store].reverse()`. -/
def listSubmissions (store : List Submission) : List Submission :=
  store.reverse

/-- The `submittedAt` instant of a stored submission (stored submissions
always carry one; `0` is a don't-care default for the `Option`). -/
def storedTime (s : Submission) : Int := s.submittedAt.getD 0

/-! ## Dashboard view transforms (`app/cv-score/page.js`) -/

/-- The dashboard's sort column. -/
inductive SortKey where
  | score
  | date
deriving DecidableEq

/-- The dashboard's sort direction. -/
inductive SortDir where
  | asc
  | desc
deriving DecidableEq

/-- The case-insensitive name filter applied before sorting. -/
def searchFiltered (items : List Item) (search : String) : List Item :=
  items.filter (fun cv =>
    strIncludes (strToLower (jsOrStr cv.name "")) (strToLower search))

/-- The comparator the dashboard passes to `sort` for an active sort
column, including the unreachable `return 0` fallback. -/
def dashCmp (sortBy : SortKey) (sortDir : SortDir) (a b : Item) : ℚ :=
  match sortBy, sortDir with
  | .score, .asc => a.score - b.score
  | .score, .desc => b.score - a.score
  | .date, .asc => ((a.date - b.date : Int) : ℚ)
  | .date, .desc => ((b.date - a.date : Int) : ℚ)

/-- The `filteredCVs` memo: filter by search, then sort by the active
column (or alphabetically by name when none is active). -/
def filteredCVs (items : List Item) (search : String)
    (sortBy : Option SortKey) (sortDir : SortDir) : List Item :=
  let result := searchFiltered items search
  match sortBy with
  | some k => jsSort (dashCmp k sortDir) result
  | none => jsSort (fun a b => strCompare (jsOrStr a.name "") (jsOrStr b.name "")) result

end Easyhire

namespace Easyhire

/-! ## Lemmas about the comparator-sort model -/

theorem insertCmp_perm {α : Type} (lt : α → α → Bool) (x : α) (l : List α) :
    List.Perm (insertCmp lt x l) (x :: l) := by
  induction l with
  | nil => simp [insertCmp]
  | cons y ys ih =>
    by_cases h : lt x y = true
    · simp [insertCmp, h]
    · simp only [insertCmp, h, if_false]
      exact ((ih.cons y).trans (List.Perm.swap x y ys))

theorem mem_insertCmp {α : Type} {lt : α → α → Bool} {x z : α} {l : List α} :
    z ∈ insertCmp lt x l ↔ z = x ∨ z ∈ l := by
  rw [(insertCmp_perm lt x l).mem_iff, List.mem_cons]

theorem foldl_insertCmp_perm {α : Type} (lt : α → α → Bool) (l acc : List α) :
    List.Perm (l.foldl (fun acc x => insertCmp lt x acc) acc) (acc ++ l) := by
  induction l generalizing acc with
  | nil => simp
  | cons x xs ih =>
    refine (ih (insertCmp lt x acc)).trans ?_
    exact ((insertCmp_perm lt x acc).append_right xs).trans List.perm_middle.symm

theorem jsSort_perm {α : Type} (cmp : α → α → ℚ) (l : List α) :
    List.Perm (jsSort cmp l) l := by
  simpa using foldl_insertCmp_perm (fun a b => decide (cmp a b < 0)) l []

theorem insertCmp_pairwise {α : Type} {f : α → ℚ} {cmp : α → α → ℚ}
    (hc : ∀ a b, cmp a b < 0 ↔ f a < f b) (x : α) {l : List α}
    (h : l.Pairwise (fun a b => f a ≤ f b)) :
    (insertCmp (fun a b => decide (cmp a b < 0)) x l).Pairwise
      (fun a b => f a ≤ f b) := by
  induction l with
  | nil => simp [insertCmp]
  | cons y ys ih =>
    rcases List.pairwise_cons.mp h with ⟨hy, hys⟩
    by_cases hxy : cmp x y < 0
    · simp only [insertCmp, hxy, decide_true_eq_true, if_pos]
      refine List.Pairwise.cons ?_ h
      intro z hz
      rcases List.mem_cons.mp hz with rfl | hz
      · exact le_of_lt ((hc x z).mp hxy)
      · exact le_of_lt (lt_of_lt_of_le ((hc x y).mp hxy) (hy z hz))
    · simp only [insertCmp, hxy]
      refine List.Pairwise.cons ?_ (ih hys)
      intro z hz
      rcases mem_insertCmp.mp hz with rfl | hz
      · exact le_of_not_lt (fun hlt => hxy ((hc z y).mpr hlt))
      · exact hy z hz

theorem foldl_insertCmp_pairwise {α : Type} {f : α → ℚ} {cmp : α → α → ℚ}
    (hc : ∀ a b, cmp a b < 0 ↔ f a < f b) (l : List α) {acc : List α}
    (hacc : acc.Pairwise (fun a b => f a ≤ f b)) :
    (l.foldl (fun acc x => insertCmp (fun a b => decide (cmp a b < 0)) x acc)
      acc).Pairwise (fun a b => f a ≤ f b) := by
  induction l generalizing acc with
  | nil => exact hacc
  | cons x xs ih => exact ih (insertCmp_pairwise hc x hacc)

theorem jsSort_pairwise {α : Type} {f : α → ℚ} {cmp : α → α → ℚ}
    (hc : ∀ a b, cmp a b < 0 ↔ f a < f b) (l : List α) :
    (jsSort cmp l).Pairwise (fun a b => f a ≤ f b) :=
  foldl_insertCmp_pairwise hc l List.Pairwise.nil

end Easyhire

namespace Easyhire

/-! ## Lemmas about the de-duplication map -/

theorem mapGet_mapSet_self (m : List ((String × Int) × Item)) (k : String × Int)
    (v : Item) : mapGet (mapSet m k v) k = some v := by
  induction m with
  | nil => simp [mapSet, mapGet]
  | cons p rest ih =>
    obtain ⟨k', v'⟩ := p
    by_cases h : k' = k
    · simp [mapSet, mapGet, h]
    · simp [mapSet, mapGet, h, ih]

theorem mapGet_mapSet_ne (m : List ((String × Int) × Item)) (k k' : String × Int)
    (v : Item) (h : k' ≠ k) : mapGet (mapSet m k v) k' = mapGet m k' := by
  induction m with
  | nil => simp [mapSet, mapGet, Ne.symm h]
  | cons p rest ih =>
    obtain ⟨k'', v''⟩ := p
    by_cases hk : k'' = k
    · subst hk
      simp [mapSet, mapGet, h, Ne.symm h]
    · by_cases hk' : k'' = k'
      · subst hk'
        simp [mapSet, mapGet, hk, h]
      · simp [mapSet, mapGet, hk, hk', ih]

/-- Well-formedness of the association list backing the `Map`: every entry
is keyed by its value's key, and keys are unique. -/
def MapWF (m : List ((String × Int) × Item)) : Prop :=
  (∀ p ∈ m, itemKey p.2 = p.1) ∧ (m.map Prod.fst).Nodup

theorem mapKeys_mapSet (m : List ((String × Int) × Item)) (k : String × Int)
    (v : Item) :
    (mapSet m k v).map Prod.fst =
      if k ∈ m.map Prod.fst then m.map Prod.fst else m.map Prod.fst ++ [k] := by
  induction m with
  | nil => simp [mapSet]
  | cons p rest ih =>
    obtain ⟨k', v'⟩ := p
    by_cases h : k' = k
    · simp [mapSet, h]
    · by_cases hmem : k ∈ rest.map Prod.fst
      · simp [mapSet, h, hmem, Ne.symm h, ih]
      · simp [mapSet, h, hmem, Ne.symm h, ih]

theorem MapWF_mapSet {m : List ((String × Int) × Item)} {k : String × Int}
    {v : Item} (h : MapWF m) (hk : itemKey v = k) : MapWF (mapSet m k v) := by
  obtain ⟨hcoh, hnd⟩ := h
  constructor
  · clear hnd
    induction m with
    | nil => simpa [mapSet] using hk
    | cons p rest ih =>
      obtain ⟨k', v'⟩ := p
      by_cases hkk : k' = k
      · intro q hq
        rcases List.mem_cons.mp (by simpa [mapSet, hkk] using hq) with rfl | hq'
        · exact hk
        · exact hcoh q (List.mem_cons_of_mem _ hq')
      · intro q hq
        rcases List.mem_cons.mp (by simpa [mapSet, hkk] using hq) with rfl | hq'
        · exact hcoh (k', v') (List.mem_cons_self _ _)
        · exact ih (fun p hp => hcoh p (List.mem_cons_of_mem _ hp)) q hq'
  · rw [mapKeys_mapSet]
    by_cases hmem : k ∈ m.map Prod.fst
    · simpa [hmem] using hnd
    · simp only [hmem, if_false]
      exact ((List.perm_append_singleton k (m.map Prod.fst)).nodup_iff).mpr
        (List.nodup_cons.mpr ⟨hmem, hnd⟩)

theorem MapWF_dedupeStep {m : List ((String × Int) × Item)} (h : MapWF m)
    (r : Item) : MapWF (dedupeStep m r) := by
  cases hm : mapGet m (itemKey r) with
  | none =>
    simp only [dedupeStep, hm]
    exact MapWF_mapSet h rfl
  | some ex =>
    by_cases hc : ex.source = Source.legacy ∧ r.source = Source.packaged
    · simp only [dedupeStep, hm, if_pos hc]
      exact MapWF_mapSet h rfl
    · simp only [dedupeStep, hm, if_neg hc]
      exact h

/-- The map holds a packaged item at key `k`. -/
def packagedAt (m : List ((String × Int) × Item)) (k : String × Int) : Prop :=
  ∃ v, mapGet m k = some v ∧ v.source = Source.packaged

theorem packagedAt_dedupeStep {m : List ((String × Int) × Item)}
    {k : String × Int} (h : packagedAt m k) (r : Item) :
    packagedAt (dedupeStep m r) k := by
  obtain ⟨v, hv, hsrc⟩ := h
  by_cases hk : itemKey r = k
  · subst hk
    have hcond : ¬ (v.source = Source.legacy ∧ r.source = Source.packaged) := by
      rintro ⟨hleg, -⟩
      rw [hsrc] at hleg
      exact Source.noConfusion hleg
    simp only [dedupeStep, hv, if_neg hcond]
    exact ⟨v, hv, hsrc⟩
  · cases hm : mapGet m (itemKey r) with
    | none =>
      simp only [dedupeStep, hm]
      exact ⟨v, by rw [mapGet_mapSet_ne m _ _ _ (Ne.symm hk)]; exact hv, hsrc⟩
    | some ex =>
      by_cases hc : ex.source = Source.legacy ∧ r.source = Source.packaged
      · simp only [dedupeStep, hm, if_pos hc]
        exact ⟨v, by rw [mapGet_mapSet_ne m _ _ _ (Ne.symm hk)]; exact hv, hsrc⟩
      · simp only [dedupeStep, hm, if_neg hc]
        exact ⟨v, hv, hsrc⟩

theorem packagedAt_dedupeStep_self {m : List ((String × Int) × Item)} {r : Item}
    (hr : r.source = Source.packaged) : packagedAt (dedupeStep m r) (itemKey r) := by
  cases hm : mapGet m (itemKey r) with
  | none =>
    simp only [dedupeStep, hm]
    exact ⟨r, mapGet_mapSet_self m _ r, hr⟩
  | some ex =>
    by_cases hc : ex.source = Source.legacy ∧ r.source = Source.packaged
    · simp only [dedupeStep, hm, if_pos hc]
      exact ⟨r, mapGet_mapSet_self m _ r, hr⟩
    · have hex : ex.source = Source.packaged := by
        cases hex : ex.source with
        | packaged => rfl
        | legacy => exact absurd ⟨hex, hr⟩ hc
      simp only [dedupeStep, hm, if_neg hc]
      exact ⟨ex, hm, hex⟩

theorem packagedAt_foldl {k : String × Int} (l : List Item)
    {m : List ((String × Int) × Item)} (h : packagedAt m k) :
    packagedAt (l.foldl dedupeStep m) k := by
  induction l generalizing m with
  | nil => exact h
  | cons r rs ih => exact ih (packagedAt_dedupeStep h r)

theorem packagedAt_foldl_of_mem {r : Item} {l : List Item}
    (hr : r ∈ l) (hsrc : r.source = Source.packaged)
    (m : List ((String × Int) × Item)) :
    packagedAt (l.foldl dedupeStep m) (itemKey r) := by
  induction l generalizing m with
  | nil => cases hr
  | cons a rs ih =>
    rcases List.mem_cons.mp hr with rfl | hmem
    · exact packagedAt_foldl rs (packagedAt_dedupeStep_self hsrc)
    · exact ih hmem _

theorem MapWF_foldl (l : List Item) {m : List ((String × Int) × Item)}
    (h : MapWF m) : MapWF (l.foldl dedupeStep m) := by
  induction l generalizing m with
  | nil => exact h
  | cons r rs ih => exact ih (MapWF_dedupeStep h r)

theorem MapWF_nil : MapWF [] := ⟨by simp, by simp⟩

theorem filter_values_empty_of_not_key {m : List ((String × Int) × Item)}
    {k : String × Int} (hcoh : ∀ p ∈ m, itemKey p.2 = p.1)
    (hnk : k ∉ m.map Prod.fst) :
    (m.map (fun p => p.2)).filter (fun x => decide (itemKey x = k)) = [] := by
  induction m with
  | nil => simp
  | cons p rest ih =>
    obtain ⟨k', v'⟩ := p
    have hv' : itemKey v' = k' := hcoh (k', v') (List.mem_cons_self _ _)
    have hne : ¬ (itemKey v' = k) := by
      rw [hv']
      intro hkk
      exact hnk (by simp [hkk])
    simp only [List.map_cons, List.filter_cons, decide_eq_false hne,
      Bool.false_eq_true, if_false]
    exact ih (fun q hq => hcoh q (List.mem_cons_of_mem _ hq))
      (fun hmem => hnk (List.mem_cons_of_mem _ hmem))

theorem filter_values_of_mapGet {m : List ((String × Int) × Item)}
    {k : String × Int} {v : Item} (h : MapWF m) (hv : mapGet m k = some v) :
    (m.map (fun p => p.2)).filter (fun x => decide (itemKey x = k)) = [v] := by
  induction m with
  | nil => cases hv
  | cons p rest ih =>
    obtain ⟨hcoh, hnd⟩ := h
    obtain ⟨k', w⟩ := p
    have hw : itemKey w = k' := hcoh (k', w) (List.mem_cons_self _ _)
    by_cases hkk : k' = k
    · subst hkk
      have hwv : w = v := by simpa [mapGet] using hv
      subst hwv
      have hk'nd : k' ∉ rest.map Prod.fst := (List.nodup_cons.mp (by simpa using hnd)).1
      simp only [List.map_cons, List.filter_cons, decide_eq_true hw, if_true]
      rw [filter_values_empty_of_not_key
        (fun q hq => hcoh q (List.mem_cons_of_mem _ hq)) hk'nd]
    · have hrest : mapGet rest k = some v := by
        simpa [mapGet, hkk] using hv
      have hne : ¬ (itemKey w = k) := by rw [hw]; exact hkk
      simp only [List.map_cons, List.filter_cons, decide_eq_false hne,
        Bool.false_eq_true, if_false]
      exact ih ⟨fun q hq => hcoh q (List.mem_cons_of_mem _ hq),
        (List.nodup_cons.mp (by simpa using hnd)).2⟩ hrest

/-- Core de-duplication result: as soon as the input rows contain a
packaged item for key `k`, the de-duplicated list holds exactly one item
with that key, and it is packaged. -/
theorem dedupe_packaged_wins {rows : List Item} {k : String × Int}
    (hp : ∃ p ∈ rows, p.source = Source.packaged ∧ itemKey p = k) :
    ∃ v, (dedupePreferPackaged rows).filter (fun x => decide (itemKey x = k)) = [v] ∧
      v.source = Source.packaged := by
  obtain ⟨p, hmem, hsrc, hkey⟩ := hp
  have hpk : packagedAt (rows.foldl dedupeStep []) k := by
    rw [← hkey]
    exact packagedAt_foldl_of_mem hmem hsrc []
  obtain ⟨v, hv, hvsrc⟩ := hpk
  refine ⟨v, ?_, hvsrc⟩
  exact filter_values_of_mapGet (MapWF_foldl rows MapWF_nil) hv

end Easyhire

namespace Easyhire

/-! ## Claim C1 and C2: the upload endpoint -/

/-- The upload route's type check `ALLOWED_MIME.has(file.type) ||
ALLOWED_EXT.has(ext)` for a file. -/
def uploadTypeOk (f : UploadFile) : Bool :=
  ALLOWED_MIME.contains f.type ||
    ALLOWED_EXT.contains (strToLower (extname (jsOrStr f.name "upload")))

/-- C1: for an upload whose file passes validation and is stored, a failed
scorer invocation (process error / non-zero exit) or unparseable scorer
output still yields a success response with `ok: true` and `score: null`;
the upload is not failed. -/
theorem c1_scorer_failure_upload_still_ok (f : UploadFile)
    (scorer : ScorerOutcome) (now : Int) (rand : String)
    (hvalid : uploadTypeOk f = true) (hsize : f.size ≤ MAX_BYTES)
    (hfail : scorer = ScorerOutcome.fail ∨ scorer = ScorerOutcome.output none) :
    (uploadPost (some f) scorer now rand).ok = true ∧
    (uploadPost (some f) scorer now rand).score = none ∧
    (uploadPost (some f) scorer now rand).status = 200 ∧
    (uploadPost (some f) scorer now rand).fileWritten = true := by
  have hns : ¬ (f.size > MAX_BYTES) := not_lt.mpr hsize
  have hcond : (!(ALLOWED_MIME.contains f.type ||
      ALLOWED_EXT.contains (strToLower (extname (jsOrStr f.name "upload"))))) = false := by
    have hv : (ALLOWED_MIME.contains f.type ||
        ALLOWED_EXT.contains (strToLower (extname (jsOrStr f.name "upload")))) = true := hvalid
    rw [hv]
    rfl
  rcases hfail with rfl | rfl <;>
  · simp only [uploadPost, hcond, Bool.false_eq_true, if_false, if_neg hns]
    exact ⟨by trivial, by trivial, by trivial, by trivial⟩

/-- Witness for C1 at a concrete valid PDF upload with a failing scorer. -/
theorem c1_scorer_failure_upload_still_ok_witness :
    (uploadPost (some ⟨"resume.pdf", "application/pdf", 1000⟩)
        ScorerOutcome.fail 0 "abcdefgh").ok = true ∧
    (uploadPost (some ⟨"resume.pdf", "application/pdf", 1000⟩)
        ScorerOutcome.fail 0 "abcdefgh").score = none ∧
    (uploadPost (some ⟨"resume.pdf", "application/pdf", 1000⟩)
        ScorerOutcome.fail 0 "abcdefgh").status = 200 ∧
    (uploadPost (some ⟨"resume.pdf", "application/pdf", 1000⟩)
        ScorerOutcome.fail 0 "abcdefgh").fileWritten = true :=
  c1_scorer_failure_upload_still_ok ⟨"resume.pdf", "application/pdf", 1000⟩
    ScorerOutcome.fail 0 "abcdefgh" (by decide) (by decide) (Or.inl rfl)

/-- C2: a file matching neither the extension allow-list nor the MIME
allow-list, or exceeding 20 MB, is rejected with a 4xx validation error
and nothing is written to disk; a file matching on either criterion and
within the size limit is accepted (and written). -/
theorem c2_upload_validation (f : UploadFile) (scorer : ScorerOutcome)
    (now : Int) (rand : String) :
    ((ALLOWED_MIME.contains f.type = false ∧
        ALLOWED_EXT.contains (strToLower (extname (jsOrStr f.name "upload"))) = false) ∨
        f.size > MAX_BYTES →
      (400 ≤ (uploadPost (some f) scorer now rand).status ∧
        (uploadPost (some f) scorer now rand).status < 500) ∧
      (uploadPost (some f) scorer now rand).fileWritten = false) ∧
    ((ALLOWED_MIME.contains f.type = true ∨
        ALLOWED_EXT.contains (strToLower (extname (jsOrStr f.name "upload"))) = true) ∧
        f.size ≤ MAX_BYTES →
      (uploadPost (some f) scorer now rand).ok = true ∧
      (uploadPost (some f) scorer now rand).fileWritten = true) := by
  constructor
  · intro h
    by_cases ht : (ALLOWED_MIME.contains f.type ||
        ALLOWED_EXT.contains (strToLower (extname (jsOrStr f.name "upload")))) = true
    · -- the type check passes, so the rejection must come from the size
      have hs : f.size > MAX_BYTES := by
        rcases h with ⟨hm, he⟩ | hs
        · rw [hm, he] at ht
          cases ht
        · exact hs
      have hcond : (!(ALLOWED_MIME.contains f.type ||
          ALLOWED_EXT.contains (strToLower (extname (jsOrStr f.name "upload"))))) = false := by
        rw [ht]
        rfl
      simp only [uploadPost, hcond, Bool.false_eq_true, if_false, if_pos hs]
      exact ⟨⟨by norm_num, by norm_num⟩, by trivial⟩
    · have hb : (ALLOWED_MIME.contains f.type ||
          ALLOWED_EXT.contains (strToLower (extname (jsOrStr f.name "upload")))) = false := by
        cases hbv : (ALLOWED_MIME.contains f.type ||
            ALLOWED_EXT.contains (strToLower (extname (jsOrStr f.name "upload")))) with
        | true => exact absurd hbv ht
        | false => rfl
      have hcond : (!(ALLOWED_MIME.contains f.type ||
          ALLOWED_EXT.contains (strToLower (extname (jsOrStr f.name "upload"))))) = true := by
        rw [hb]
        rfl
      simp only [uploadPost, hcond, if_true]
      exact ⟨⟨by norm_num, by norm_num⟩, by trivial⟩
  · rintro ⟨ht, hsz⟩
    have htv : (ALLOWED_MIME.contains f.type ||
        ALLOWED_EXT.contains (strToLower (extname (jsOrStr f.name "upload")))) = true := by
      rcases ht with h | h <;> rw [h] <;> simp
    have hns : ¬ (f.size > MAX_BYTES) := not_lt.mpr hsz
    have hcond : (!(ALLOWED_MIME.contains f.type ||
        ALLOWED_EXT.contains (strToLower (extname (jsOrStr f.name "upload"))))) = false := by
      rw [htv]
      rfl
    simp only [uploadPost, hcond, Bool.false_eq_true, if_false, if_neg hns]
    exact ⟨by trivial, by trivial⟩

/-- Witness for C2: a `.txt` upload with a non-allowed MIME type is
rejected with a 4xx status and no disk write. -/
theorem c2_upload_validation_witness :
    (400 ≤ (uploadPost (some ⟨"notes.txt", "text/plain", 100⟩)
        ScorerOutcome.fail 0 "abcdefgh").status ∧
      (uploadPost (some ⟨"notes.txt", "text/plain", 100⟩)
        ScorerOutcome.fail 0 "abcdefgh").status < 500) ∧
    (uploadPost (some ⟨"notes.txt", "text/plain", 100⟩)
        ScorerOutcome.fail 0 "abcdefgh").fileWritten = false :=
  (c2_upload_validation ⟨"notes.txt", "text/plain", 100⟩
      ScorerOutcome.fail 0 "abcdefgh").1
    (Or.inl ⟨by decide, by decide⟩)

end Easyhire

namespace Easyhire

/-! ## Claim C8: tolerance of malformed Score Log lines -/

theorem parseAll_eq_goodRows (lines : List LogLine) (rs : List LegacyRow)
    (h : readScores.parseAll lines = .ok rs) : rs = goodRows lines := by
  induction lines generalizing rs with
  | nil =>
    simp [readScores.parseAll] at h
    simp [goodRows, ← h]
  | cons l ls ih =>
    cases l with
    | blank =>
      simp only [readScores.parseAll] at h
      simpa [goodRows] using ih rs h
    | bad => simp [readScores.parseAll] at h
    | good r =>
      simp only [readScores.parseAll] at h
      cases hls : readScores.parseAll ls with
      | error e => rw [hls] at h; simp [Except.map] at h
      | ok rs' =>
        rw [hls] at h
        simp only [Except.map, Except.ok.injEq] at h
        rw [goodRows, ← h, ih rs' hls]

theorem legacyRowsOf_some (lines : List LogLine) :
    legacyRowsOf (some lines) = goodRows lines := by
  cases h : readScores.parseAll lines with
  | ok rs =>
    have hrs : rs = goodRows lines := parseAll_eq_goodRows lines rs h
    simp [legacyRowsOf, tryReadLegacyViaLib, readScores, h, jsNullish, hrs]
  | error e =>
    simp [legacyRowsOf, tryReadLegacyViaLib, tryReadLegacyFromFile, readScores,
      h, jsNullish]

theorem goodRows_append (l1 l2 : List LogLine) :
    goodRows (l1 ++ l2) = goodRows l1 ++ goodRows l2 := by
  induction l1 with
  | nil => simp [goodRows]
  | cons l ls ih => cases l <;> simp [goodRows, ih]

/-- C8: the Aggregator reads and normalizes every well-formed JSON line of
the Score Log and skips each malformed line individually; a malformed line
neither fails the summary computation nor drops well-formed entries.
(When the file has a malformed line, the strict `readScores` reader throws,
the thrown error is swallowed, and the forgiving line-by-line fallback
reader supplies exactly the well-formed rows.) -/
theorem c8_malformed_lines_skipped (lines pre post : List LogLine)
    (subs : List Submission) (now : Int) :
    legacyRowsOf (some lines) = goodRows lines ∧
    computeSummary subs (some (pre ++ LogLine.bad :: post)) now =
      computeSummary subs (some (pre ++ post)) now := by
  refine ⟨legacyRowsOf_some lines, ?_⟩
  have hrows : legacyRowsOf (some (pre ++ LogLine.bad :: post)) =
      legacyRowsOf (some (pre ++ post)) := by
    rw [legacyRowsOf_some, legacyRowsOf_some, goodRows_append, goodRows_append,
      goodRows]
  simp only [computeSummary, legacyItems, hrows]

/-! ## Claim C3: de-duplication prefers the Submission-derived item -/

theorem packagedItems_source {now : Int} {subs : List Submission} {p : Item}
    (hp : p ∈ packagedItems now subs) : p.source = Source.packaged := by
  obtain ⟨s, -, rfl⟩ := List.mem_map.mp hp
  rfl

/-- C3: whenever a Submission-derived item and a Score-Log-derived item
agree on the de-duplication key (lowercased email-or-name-or-filename plus
the timestamp's minute), the merged output contains exactly one item for
that key, and it is Submission-derived (`_source = "packaged"`). -/
theorem c3_dedupe_prefers_submission (subs : List Submission)
    (file : Option (List LogLine)) (now : Int) (k : String × Int)
    (hp : ∃ p ∈ packagedItems now subs, itemKey p = k)
    (hl : ∃ l ∈ legacyItems now file, itemKey l = k) :
    ((computeSummary subs file now).items.filter
        (fun r => decide (itemKey r = k))).length = 1 ∧
    ∀ r ∈ (computeSummary subs file now).items,
      itemKey r = k → r.source = Source.packaged := by
  clear hl
  obtain ⟨p, hpmem, hpkey⟩ := hp
  have hrows : ∃ q ∈ packagedItems now subs ++ legacyItems now file,
      q.source = Source.packaged ∧ itemKey q = k :=
    ⟨p, List.mem_append_left _ hpmem, packagedItems_source hpmem, hpkey⟩
  obtain ⟨v, hfilter, hvsrc⟩ := dedupe_packaged_wins hrows
  have hitems : (computeSummary subs file now).items =
      jsSort dateDescCmp
        (dedupePreferPackaged (packagedItems now subs ++ legacyItems now file)) := rfl
  have hperm : List.Perm ((computeSummary subs file now).items)
      (dedupePreferPackaged (packagedItems now subs ++ legacyItems now file)) := by
    rw [hitems]
    exact jsSort_perm _ _
  have hfperm : List.Perm
      ((computeSummary subs file now).items.filter (fun r => decide (itemKey r = k)))
      [v] := by
    rw [← hfilter]
    exact hperm.filter _
  have hfeq : (computeSummary subs file now).items.filter
      (fun r => decide (itemKey r = k)) = [v] := List.perm_singleton.mp hfperm
  refine ⟨by rw [hfeq]; rfl, ?_⟩
  intro r hr hkey
  have hrf : r ∈ (computeSummary subs file now).items.filter
      (fun r => decide (itemKey r = k)) :=
    List.mem_filter.mpr ⟨hr, by simp [hkey]⟩
  rw [hfeq] at hrf
  rw [List.mem_singleton.mp hrf]
  exact hvsrc

end Easyhire

namespace Easyhire

/-- A concrete stored submission used by witnesses. -/
def sampleSubmission : Submission :=
  { id := "s1", submittedAt := some 0, fileName := none, fileType := none,
    name := "Alice", email := "alice@x.com", phone := "",
    isNZCitizen := false, hasCriminalHistory := false, whyJoin := "",
    messageToHM := "", scoring := none }

/-- A concrete legacy score-log row colliding with `sampleSubmission` on
the de-duplication key (same e-mail, timestamp in the same minute). -/
def sampleLegacyRow : LegacyRow :=
  { name := some "Alice", candidate := none, file := none, fileName := none,
    fileType := none, date := some (JSDateVal.valid 30000), submittedAt := none,
    id := none, uuid := none, email := some "alice@x.com", phone := none,
    whyJoin := none, messageToHM := none, isNZCitizen := false,
    hasCriminalHistory := false, score := JSVal.num 50, overall := JSVal.undef,
    final := JSVal.undef, total := JSVal.undef }

/-- Witness for C3: one submission and one legacy row sharing the key
`("alice@x.com", minute 0)`. -/
theorem c3_dedupe_prefers_submission_witness :
    ((computeSummary [sampleSubmission] (some [LogLine.good sampleLegacyRow]) 0).items.filter
        (fun r => decide (itemKey r = ("alice@x.com", 0)))).length = 1 ∧
    ∀ r ∈ (computeSummary [sampleSubmission] (some [LogLine.good sampleLegacyRow]) 0).items,
      itemKey r = ("alice@x.com", 0) → r.source = Source.packaged :=
  c3_dedupe_prefers_submission [sampleSubmission]
    (some [LogLine.good sampleLegacyRow]) 0 ("alice@x.com", 0)
    (by decide) (by decide)

/-! ## Claim C4: the average is the rounded arithmetic mean -/

/-- Arithmetic mean of a list of rationals (`0` when empty, since the
quotient degenerates). -/
def arithMean (l : List ℚ) : ℚ := l.sum / (l.length : ℚ)

/-- Rounding to 2 decimal places (with round-half-up, as `Math.round`). -/
def roundTo2 (q : ℚ) : ℚ := ((⌊q * 100 + 1 / 2⌋ : ℤ) : ℚ) / 100

theorem jsNumOrZero_eq (q : ℚ) : jsNumOrZero q = q := by
  rw [jsNumOrZero]
  split
  · rename_i h
    rw [h]
  · rfl

/-- C4: the summary's `averageScore` is the arithmetic mean of the
de-duplicated items' scores rounded to 2 decimal places, and `0` when the
de-duplicated item list is empty. -/
theorem c4_average_is_rounded_mean (subs : List Submission)
    (file : Option (List LogLine)) (now : Int) :
    (computeSummary subs file now).averageScore =
      if dedupePreferPackaged (packagedItems now subs ++ legacyItems now file) = []
      then 0
      else roundTo2 (arithMean
        ((dedupePreferPackaged (packagedItems now subs ++ legacyItems now file)).map
          (fun r => r.score))) := by
  have hfun : (fun n : Item => jsNumOrZero n.score) = (fun n : Item => n.score) := by
    funext n
    exact jsNumOrZero_eq n.score
  have hperm : List.Perm
      (jsSort dateDescCmp
        (dedupePreferPackaged (packagedItems now subs ++ legacyItems now file)))
      (dedupePreferPackaged (packagedItems now subs ++ legacyItems now file)) :=
    jsSort_perm _ _
  have havg : (computeSummary subs file now).averageScore =
      if ((jsSort dateDescCmp
            (dedupePreferPackaged (packagedItems now subs ++ legacyItems now file))).map
          (fun n : Item => jsNumOrZero n.score)).length ≠ 0 then
        (jsRound ((((jsSort dateDescCmp
            (dedupePreferPackaged (packagedItems now subs ++ legacyItems now file))).map
            (fun n : Item => jsNumOrZero n.score)).sum /
          (((jsSort dateDescCmp
            (dedupePreferPackaged (packagedItems now subs ++ legacyItems now file))).map
            (fun n : Item => jsNumOrZero n.score)).length : ℚ)) * 100) : ℚ) / 100
      else 0 := rfl
  rw [havg, hfun]
  have hsum : ((jsSort dateDescCmp
      (dedupePreferPackaged (packagedItems now subs ++ legacyItems now file))).map
      (fun n : Item => n.score)).sum =
      ((dedupePreferPackaged (packagedItems now subs ++ legacyItems now file)).map
      (fun n : Item => n.score)).sum :=
    (hperm.map (fun n : Item => n.score)).sum_eq
  have hlen : ((jsSort dateDescCmp
      (dedupePreferPackaged (packagedItems now subs ++ legacyItems now file))).map
      (fun n : Item => n.score)).length =
      ((dedupePreferPackaged (packagedItems now subs ++ legacyItems now file)).map
      (fun n : Item => n.score)).length :=
    (hperm.map (fun n : Item => n.score)).length_eq
  rw [hsum, hlen]
  by_cases hnil :
      dedupePreferPackaged (packagedItems now subs ++ legacyItems now file) = []
  · simp [hnil]
  · have hne : ((dedupePreferPackaged
        (packagedItems now subs ++ legacyItems now file)).map
        (fun n : Item => n.score)).length ≠ 0 := by
      simpa [List.length_eq_zero] using hnil
    rw [if_pos hne, if_neg hnil]
    rw [roundTo2, arithMean, jsRound]

end Easyhire

namespace Easyhire

/-! ## Claim C5: score extraction order and finiteness -/

theorem firstFiniteNum_eq_findSome (l : List JSVal) :
    firstFiniteNum l = l.findSome? jsToNumFinite := by
  induction l with
  | nil => rfl
  | cons c rest ih =>
    rw [firstFiniteNum, List.findSome?]
    cases jsToNumFinite c <;> simp [ih]

/-- C5: every aggregated item's score is a finite number (here: a rational
by construction, with `0` as the fallback), and it is taken from the first
field among `score, overall, final, total` — in that fixed priority
order — whose `Number()` coercion is finite, for both the
Submission-derived and the Score-Log-derived normalizers. -/
theorem c5_score_first_finite_candidate (s : Submission) (row : LegacyRow)
    (now : Int) (idx : Nat) :
    (normalizeFromSubmission now s).score =
      (([(s.scoring.getD emptyScoreFields).score,
         (s.scoring.getD emptyScoreFields).overall,
         (s.scoring.getD emptyScoreFields).final,
         (s.scoring.getD emptyScoreFields).total].findSome? jsToNumFinite).getD 0) ∧
    (normalizeFromLegacy now idx row).score =
      (([row.score, row.overall, row.final, row.total].findSome?
        jsToNumFinite).getD 0) := by
  constructor
  · show extractScoreLike (s.scoring.getD emptyScoreFields) = _
    rw [extractScoreLike, firstFiniteNum_eq_findSome]
  · show extractScoreLike row.scoreView = _
    rw [extractScoreLike, firstFiniteNum_eq_findSome]
    rfl

/-! ## Claim C6: purity of the summary computation (corrected)

The claim as stated is false: `normalizeFromLegacy` falls back to
`new Date()` (the current clock) for a row carrying no `date` /
`submittedAt`, so `computeSummary` is not a function of the Submission
Store snapshot and the Score Log contents alone. -/

/-- A legacy score-log row with no date information at all: its normalized
`date` becomes the current time. -/
def undatedLegacyRow : LegacyRow :=
  { name := some "Bob", candidate := none, file := none, fileName := none,
    fileType := none, date := none, submittedAt := none, id := none,
    uuid := none, email := none, phone := none, whyJoin := none,
    messageToHM := none, isNZCitizen := false, hasCriminalHistory := false,
    score := JSVal.num 10, overall := JSVal.undef, final := JSVal.undef,
    total := JSVal.undef }

/-- Counterexample to C6 as stated: with the same (empty) Submission Store
and the same one-line Score Log, two runs at clock values 0 and 60000
produce different summaries (the undated row's item carries the clock as
its date). -/
theorem c6_counterexample :
    computeSummary [] (some [LogLine.good undatedLegacyRow]) 0 ≠
      computeSummary [] (some [LogLine.good undatedLegacyRow]) 60000 := by
  intro h
  have hdates :
      (computeSummary [] (some [LogLine.good undatedLegacyRow]) 0).items.map
        (fun r => r.date) =
      (computeSummary [] (some [LogLine.good undatedLegacyRow]) 60000).items.map
        (fun r => r.date) := by
    rw [h]
  exact absurd hdates (by decide)

theorem normalizeFromSubmission_clock_free {s : Submission} (now₁ now₂ : Int)
    (hs : s.submittedAt ≠ none) :
    normalizeFromSubmission now₁ s = normalizeFromSubmission now₂ s := by
  obtain ⟨t, ht⟩ := Option.ne_none_iff_exists'.mp hs
  simp [normalizeFromSubmission, ht]

theorem normalizeFromLegacy_clock_free {row : LegacyRow} (now₁ now₂ : Int)
    (idx : Nat) (hr : ∃ t, jsNullish row.date row.submittedAt =
      some (JSDateVal.valid t)) :
    normalizeFromLegacy now₁ idx row = normalizeFromLegacy now₂ idx row := by
  obtain ⟨t, ht⟩ := hr
  simp [normalizeFromLegacy, ht]

theorem normalizeLegacyList_clock_free {rows : List LegacyRow} (now₁ now₂ : Int)
    (hl : ∀ r ∈ rows, ∃ t, jsNullish r.date r.submittedAt =
      some (JSDateVal.valid t)) :
    ∀ i, normalizeLegacyList now₁ i rows = normalizeLegacyList now₂ i rows := by
  induction rows with
  | nil => intro i; rfl
  | cons r rs ih =>
    intro i
    rw [normalizeLegacyList, normalizeLegacyList,
      normalizeFromLegacy_clock_free now₁ now₂ i (hl r (List.mem_cons_self _ _)),
      ih (fun q hq => hl q (List.mem_cons_of_mem _ hq)) (i + 1)]

theorem packagedItems_clock_free {subs : List Submission} (now₁ now₂ : Int)
    (hs : ∀ s ∈ subs, s.submittedAt ≠ none) :
    packagedItems now₁ subs = packagedItems now₂ subs := by
  induction subs with
  | nil => rfl
  | cons s ss ih =>
    simp only [packagedItems, List.map_cons]
    rw [normalizeFromSubmission_clock_free now₁ now₂ (hs s (List.mem_cons_self _ _))]
    have := ih (fun q hq => hs q (List.mem_cons_of_mem _ hq))
    simpa [packagedItems] using this

/-- C6 amended: `computeSummary` is a pure function of the Submission Store
snapshot and the Score Log contents **provided** every stored submission
carries a (non-empty) `submittedAt` and every legacy row resolves a valid
`date` or `submittedAt`; a row missing both takes the current clock as its
date, so the summary then depends on the clock. -/
theorem c6_computeSummary_clock_independent (subs : List Submission)
    (file : Option (List LogLine)) (now₁ now₂ : Int)
    (hs : ∀ s ∈ subs, s.submittedAt ≠ none)
    (hl : ∀ r ∈ legacyRowsOf file, ∃ t, jsNullish r.date r.submittedAt =
      some (JSDateVal.valid t)) :
    computeSummary subs file now₁ = computeSummary subs file now₂ := by
  have hpack := packagedItems_clock_free now₁ now₂ hs
  have hleg : legacyItems now₁ file = legacyItems now₂ file := by
    rw [legacyItems, legacyItems, normalizeLegacyList_clock_free now₁ now₂ hl 0]
  simp only [computeSummary, hpack, hleg]

/-- Witness for the amended C6: a dated store plus a dated log line give
the same summary at two different clock values. -/
theorem c6_computeSummary_clock_independent_witness :
    computeSummary [sampleSubmission] (some [LogLine.good sampleLegacyRow]) 0 =
      computeSummary [sampleSubmission] (some [LogLine.good sampleLegacyRow]) 60000 :=
  c6_computeSummary_clock_independent [sampleSubmission]
    (some [LogLine.good sampleLegacyRow]) 0 60000
    (by
      intro s hs
      rw [List.mem_singleton.mp hs]
      simp [sampleSubmission])
    (by
      intro r hr
      rw [legacyRowsOf_some] at hr
      have hr' : r = sampleLegacyRow := by simpa [goodRows] using hr
      exact ⟨30000, by rw [hr']; rfl⟩)

/-! ## Claim C7: submissions list order (corrected)

`GET /api/submissions` returns the store in reverse *insertion* order.
Since `POST` accepts an arbitrary client-supplied `submittedAt`, reverse
insertion order need not be reverse-chronological order of the
submission timestamps. -/

/-- A submission inserted first but carrying the later timestamp. -/
def subA : Submission :=
  { id := "a", submittedAt := some 60000, fileName := none, fileType := none,
    name := "A", email := "", phone := "", isNZCitizen := false,
    hasCriminalHistory := false, whyJoin := "", messageToHM := "",
    scoring := none }

/-- A submission inserted second but carrying the earlier timestamp. -/
def subB : Submission :=
  { id := "b", submittedAt := some 0, fileName := none, fileType := none,
    name := "B", email := "", phone := "", isNZCitizen := false,
    hasCriminalHistory := false, whyJoin := "", messageToHM := "",
    scoring := none }

/-- Counterexample to C7 as stated: with the store `[subA, subB]`
(insertable via two POSTs, since POST trusts the body's `submittedAt`),
the returned list is *not* in reverse-chronological order of the
submission timestamps. -/
theorem c7_counterexample :
    ¬ (listSubmissions [subA, subB]).Pairwise
      (fun a b => storedTime b ≤ storedTime a) := by
  decide

/-- C7 amended: the list operation returns the stored submissions in
reverse insertion order (`[...store].reverse()`); this is
reverse-chronological in the submission timestamps exactly when the store
was filled in non-decreasing timestamp order (as happens when
`submittedAt` is left to default to the insertion time). -/
theorem c7_list_reverse_insertion (store : List Submission)
    (hchron : store.Pairwise (fun a b => storedTime a ≤ storedTime b)) :
    listSubmissions store = store.reverse ∧
    (listSubmissions store).Pairwise (fun a b => storedTime b ≤ storedTime a) := by
  refine ⟨rfl, ?_⟩
  rw [listSubmissions]
  exact List.pairwise_reverse.mpr hchron

/-- Witness for the amended C7 on a chronologically filled store. -/
theorem c7_list_reverse_insertion_witness :
    listSubmissions [subB, subA] = [subB, subA].reverse ∧
    (listSubmissions [subB, subA]).Pairwise
      (fun a b => storedTime b ≤ storedTime a) :=
  c7_list_reverse_insertion [subB, subA] (by decide)

end Easyhire

namespace Easyhire

/-! ## Claim C9: ascending/descending sort are mirror images (corrected)

`Array.prototype.sort` is stable, so two items with *equal* scores keep
their input order under both directions; the descending ordering is then
not the reverse of the ascending one.  With pairwise-distinct scores the
mirror property holds. -/

/-- First dashboard item of a tying pair. -/
def itemA : Item :=
  { id := "a", name := "a", score := 1, date := 0, fileName := none,
    fileType := none, email := "", phone := "", isNZCitizen := false,
    hasCriminalHistory := false, whyJoin := "", messageToHM := "",
    scoring := none, source := Source.legacy }

/-- Second dashboard item of a tying pair (same score as `itemA`). -/
def itemB : Item :=
  { id := "b", name := "b", score := 1, date := 0, fileName := none,
    fileType := none, email := "", phone := "", isNZCitizen := false,
    hasCriminalHistory := false, whyJoin := "", messageToHM := "",
    scoring := none, source := Source.legacy }

/-- Counterexample to C9 as stated: on two items with equal scores, the
stable sort returns the same order in both directions, which is not the
mirror image. -/
theorem c9_counterexample :
    filteredCVs [itemA, itemB] "" (some SortKey.score) SortDir.desc ≠
      (filteredCVs [itemA, itemB] "" (some SortKey.score) SortDir.asc).reverse := by
  have hbase : searchFiltered [itemA, itemB] "" = [itemA, itemB] := by decide
  have hlt : ((1 : ℚ) - 1 < 0) = False := by simp
  have hdesc : filteredCVs [itemA, itemB] "" (some SortKey.score) SortDir.desc =
      [itemA, itemB] := by
    simp only [filteredCVs, hbase]
    simp [jsSort, insertCmp, dashCmp, itemA, itemB, hlt]
  have hasc : filteredCVs [itemA, itemB] "" (some SortKey.score) SortDir.asc =
      [itemA, itemB] := by
    simp only [filteredCVs, hbase]
    simp [jsSort, insertCmp, dashCmp, itemA, itemB, hlt]
  rw [hdesc, hasc]
  decide

/-- C9 amended: ascending and descending score sorts are orderings of the
same item set (they are permutations of each other), and they are mirror
images whenever the displayed items' scores are pairwise distinct; with
tied scores the stable sort preserves input order in both directions
instead. -/
theorem c9_sort_mirror_distinct (items : List Item) (search : String)
    (hd : (searchFiltered items search).Pairwise (fun a b => a.score ≠ b.score)) :
    List.Perm (filteredCVs items search (some SortKey.score) SortDir.desc)
      (filteredCVs items search (some SortKey.score) SortDir.asc) ∧
    filteredCVs items search (some SortKey.score) SortDir.desc =
      (filteredCVs items search (some SortKey.score) SortDir.asc).reverse := by
  have hascP : List.Perm (filteredCVs items search (some SortKey.score) SortDir.asc)
      (searchFiltered items search) := jsSort_perm _ _
  have hdescP : List.Perm (filteredCVs items search (some SortKey.score) SortDir.desc)
      (searchFiltered items search) := jsSort_perm _ _
  have hperm := hdescP.trans hascP.symm
  refine ⟨hperm, ?_⟩
  have hsortA : (filteredCVs items search (some SortKey.score) SortDir.asc).Pairwise
      (fun a b => a.score ≤ b.score) := by
    refine jsSort_pairwise (f := fun i : Item => i.score) ?_ _
    intro a b
    constructor
    · intro h
      exact sub_neg.mp h
    · intro h
      exact sub_neg.mpr h
  have hsortD : (filteredCVs items search (some SortKey.score) SortDir.desc).Pairwise
      (fun a b => (fun i : Item => -i.score) a ≤ (fun i : Item => -i.score) b) := by
    refine jsSort_pairwise (f := fun i : Item => -i.score) ?_ _
    intro a b
    constructor
    · intro h
      exact neg_lt_neg_iff.mpr (sub_neg.mp h)
    · intro h
      exact sub_neg.mpr (neg_lt_neg_iff.mp h)
  have hsymm : ∀ {x y : Item}, x.score ≠ y.score → y.score ≠ x.score :=
    fun h => Ne.symm h
  have hdA : (filteredCVs items search (some SortKey.score) SortDir.asc).Pairwise
      (fun a b => a.score ≠ b.score) :=
    (List.Perm.pairwise_iff hsymm hascP).mpr hd
  have hdD : (filteredCVs items search (some SortKey.score) SortDir.desc).Pairwise
      (fun a b => a.score ≠ b.score) :=
    (List.Perm.pairwise_iff hsymm hdescP).mpr hd
  have hstrictA : (filteredCVs items search (some SortKey.score) SortDir.asc).Pairwise
      (fun a b => a.score < b.score) :=
    (hsortA.and hdA).imp (fun h => lt_of_le_of_ne h.1 h.2)
  have hstrictD : (filteredCVs items search (some SortKey.score) SortDir.desc).Pairwise
      (fun a b => b.score < a.score) :=
    (hsortD.and hdD).imp (fun h => lt_of_le_of_ne (neg_le_neg_iff.mp h.1) (Ne.symm h.2))
  have hrevA : ((filteredCVs items search (some SortKey.score) SortDir.asc).reverse).Pairwise
      (fun a b => b.score < a.score) :=
    List.pairwise_reverse.mpr hstrictA
  have hpermRA : List.Perm (filteredCVs items search (some SortKey.score) SortDir.desc)
      ((filteredCVs items search (some SortKey.score) SortDir.asc).reverse) :=
    hperm.trans (List.reverse_perm _).symm
  haveI : IsAntisymm Item (fun a b : Item => b.score < a.score) :=
    ⟨fun _ _ h1 h2 => (lt_asymm h1 h2).elim⟩
  exact List.eq_of_perm_of_sorted hpermRA hstrictD hrevA

/-- Third dashboard item, distinct score. -/
def itemC : Item :=
  { id := "c", name := "c", score := 2, date := 0, fileName := none,
    fileType := none, email := "", phone := "", isNZCitizen := false,
    hasCriminalHistory := false, whyJoin := "", messageToHM := "",
    scoring := none, source := Source.legacy }

/-- Fourth dashboard item, distinct score. -/
def itemD : Item :=
  { id := "d", name := "d", score := 5, date := 0, fileName := none,
    fileType := none, email := "", phone := "", isNZCitizen := false,
    hasCriminalHistory := false, whyJoin := "", messageToHM := "",
    scoring := none, source := Source.legacy }

/-- Witness for the amended C9 on two items with distinct scores. -/
theorem c9_sort_mirror_distinct_witness :
    List.Perm (filteredCVs [itemC, itemD] "" (some SortKey.score) SortDir.desc)
      (filteredCVs [itemC, itemD] "" (some SortKey.score) SortDir.asc) ∧
    filteredCVs [itemC, itemD] "" (some SortKey.score) SortDir.desc =
      (filteredCVs [itemC, itemD] "" (some SortKey.score) SortDir.asc).reverse :=
  c9_sort_mirror_distinct [itemC, itemD] "" (by decide)

/-! ## Claim C10: POST defaults for submissions (corrected)

The handler checks JS truthiness of `body.id`, so a body whose `id` is the
*empty string* — a body that does contain an id — is also rejected; apart
from that boundary the claim's defaulting behaviour holds. -/

/-- A body containing an (empty-string) id. -/
def emptyIdBody : SubmissionBody :=
  { id := some "", submittedAt := none, fileName := none, fileType := none,
    name := none, email := none, phone := none, isNZCitizen := none,
    hasCriminalHistory := none, whyJoin := none, messageToHM := none,
    scoring := none }

/-- Counterexample to C10 as stated: `{ id: "" }` contains an id, yet the
call is rejected with 400 (and the store is left unchanged), contradicting
"only a missing id causes rejection". -/
theorem c10_counterexample :
    emptyIdBody.id ≠ none ∧
    (postSubmission 0 [] emptyIdBody).2 = PostOutcome.clientError 400 "Missing id" ∧
    (postSubmission 0 [] emptyIdBody).1 = [] := by
  refine ⟨by simp [emptyIdBody], ?_, ?_⟩ <;> rfl

/-- C10 amended: a POST body with a present **and non-empty** id succeeds
and stores a fully-populated submission with the deterministic defaults
(`submittedAt` ← current time, string fields ← `""`, `fileName`/`fileType`/
`scoring` ← `null`, booleans ← `false`); a missing **or empty** id is
rejected with a 400 and leaves the store unchanged. -/
theorem c10_post_defaults (now : Int) (store : List Submission)
    (b : SubmissionBody) :
    (idFalsy b = true →
      postSubmission now store b = (store, PostOutcome.clientError 400 "Missing id")) ∧
    (idFalsy b = false →
      postSubmission now store b =
        (store ++ [{ id := b.id.getD "",
                     submittedAt := some (b.submittedAt.getD now),
                     fileName := b.fileName, fileType := b.fileType,
                     name := b.name.getD "", email := b.email.getD "",
                     phone := b.phone.getD "",
                     isNZCitizen := b.isNZCitizen.getD false,
                     hasCriminalHistory := b.hasCriminalHistory.getD false,
                     whyJoin := b.whyJoin.getD "",
                     messageToHM := b.messageToHM.getD "",
                     scoring := b.scoring }], PostOutcome.success)) := by
  constructor
  · intro h
    simp [postSubmission, h]
  · intro h
    simp [postSubmission, h, buildSubmission]

/-- A body with a non-empty id and nothing else. -/
def goodBody : SubmissionBody :=
  { id := some "s2", submittedAt := none, fileName := none, fileType := none,
    name := none, email := none, phone := none, isNZCitizen := none,
    hasCriminalHistory := none, whyJoin := none, messageToHM := none,
    scoring := none }

/-- Witness for the amended C10: a body with id `"s2"` and nothing else is
stored with all defaults filled in. -/
theorem c10_post_defaults_witness :
    postSubmission 5 [] goodBody =
      ([{ id := "s2", submittedAt := some 5, fileName := none,
          fileType := none, name := "", email := "", phone := "",
          isNZCitizen := false, hasCriminalHistory := false, whyJoin := "",
          messageToHM := "", scoring := none }], PostOutcome.success) := by
  have h := (c10_post_defaults 5 [] goodBody).2 (by decide)
  simpa [goodBody] using h

end Easyhire
